import Mathlib

/-!
Verification of the normalization pipeline of `unified_report_generator.py`
(report-generator-api). Python values flowing through the pipeline are
JSON-like; they are modelled by the `Json` type below. Python string
operations (`str.lower`, `str.strip`, substring `in`, `str.startswith`)
are modelled over the underlying character lists. Dates parsed by
`datetime.strptime(_, "%m/%Y")` are modelled as `(year, month)` pairs of
naturals compared lexicographically, matching `datetime` comparison for
fixed day 1. `str.isdigit` is modelled by ASCII digits.
-/

/-- JSON-like Python value (dict keys keep insertion order, as in CPython). -/
inductive Json where
  | null : Json
  | bool : Bool → Json
  | num : Int → Json
  | str : String → Json
  | arr : List Json → Json
  | obj : List (String × Json) → Json

mutual
/-- Structural equality of JSON-like values (Python `==`). -/
def jsonBEq : Json → Json → Bool
  | .null, .null => true
  | .bool a, .bool b => a == b
  | .num a, .num b => a == b
  | .str a, .str b => a == b
  | .arr a, .arr b => jsonListBEq a b
  | .obj a, .obj b => jsonFieldsBEq a b
  | _, _ => false

/-- Structural equality on lists of JSON-like values. -/
def jsonListBEq : List Json → List Json → Bool
  | [], [] => true
  | a :: as, b :: bs => jsonBEq a b && jsonListBEq as bs
  | _, _ => false

/-- Structural equality on key-value lists of JSON-like values. -/
def jsonFieldsBEq : List (String × Json) → List (String × Json) → Bool
  | [], [] => true
  | (k, v) :: as, (k2, v2) :: bs => k == k2 && jsonBEq v v2 && jsonFieldsBEq as bs
  | _, _ => false
end

/-- ASCII lower-casing of one character, as `str.lower` acts on ASCII. -/
def lowerChar (c : Char) : Char :=
  if 'A' ≤ c ∧ c ≤ 'Z' then Char.ofNat (c.toNat + 32) else c

/-- ASCII upper-casing of one character, as `str.upper` acts on ASCII. -/
def upperChar (c : Char) : Char :=
  if 'a' ≤ c ∧ c ≤ 'z' then Char.ofNat (c.toNat - 32) else c

/-- Model of Python `str.lower` (ASCII fragment). -/
def pyLower (s : String) : String := String.mk (s.toList.map lowerChar)

/-- Model of Python `str.upper` (ASCII fragment). -/
def pyUpper (s : String) : String := String.mk (s.toList.map upperChar)

/-- Characters treated as whitespace by `str.strip` and the regex `\s`. -/
def isSpaceC (c : Char) : Bool :=
  c == ' ' || c == '\t' || c == '\n' || c == '\r' || c == '\x0b' || c == '\x0c'

/-- Strip leading and trailing whitespace from a character list. -/
def stripL (l : List Char) : List Char :=
  ((l.dropWhile isSpaceC).reverse.dropWhile isSpaceC).reverse

/-- Model of Python `str.strip()`. -/
def pyStrip (s : String) : String := String.mk (stripL s.toList)

/-- List-level string-prefix test. -/
def isPrefixL : List Char → List Char → Bool
  | [], _ => true
  | _ :: _, [] => false
  | a :: as, b :: bs => a == b && isPrefixL as bs

/-- `substrL pat s`: `pat` occurs as a contiguous substring of `s`
(Python `pat in s`; the empty pattern always occurs). -/
def substrL (pat : List Char) : List Char → Bool
  | [] => isPrefixL pat []
  | c :: rest => isPrefixL pat (c :: rest) || substrL pat rest

/-- Model of Python substring containment `pat in s`. -/
def strContains (s pat : String) : Bool := substrL pat.toList s.toList

/-- Model of Python `s.startswith(pat)`. -/
def startsWithStr (s pat : String) : Bool := isPrefixL pat.toList s.toList

/-- `valid_mm_yyyy` from the source: length-7 string `MM/YYYY` with digit
month in 1..12 and digit year. -/
def valid_mm_yyyy (date_str : String) : Bool :=
  match date_str.toList with
  | [m1, m2, '/', y1, y2, y3, y4] =>
      m1.isDigit && m2.isDigit && y1.isDigit && y2.isDigit && y3.isDigit && y4.isDigit &&
      (let mm := (m1.toNat - 48) * 10 + (m2.toNat - 48)
       decide (1 ≤ mm) && decide (mm ≤ 12))
  | _ => false

/-- `parse_mm_yyyy` from the source, i.e. `datetime.strptime(_, "%m/%Y")`
returning `None` on failure, on the `MM/YYYY` shapes that reach it (every
call site first checks `valid_mm_yyyy`): month 1..12 and year ≥ 1 parse to
the pair `(year, month)`; year 0000 raises in `datetime` and yields `none`. -/
def parse_mm_yyyy (date_str : String) : Option (Nat × Nat) :=
  match date_str.toList with
  | [m1, m2, '/', y1, y2, y3, y4] =>
      if m1.isDigit && m2.isDigit && y1.isDigit && y2.isDigit && y3.isDigit && y4.isDigit then
        let mm := (m1.toNat - 48) * 10 + (m2.toNat - 48)
        let yy := (((y1.toNat - 48) * 10 + (y2.toNat - 48)) * 10 + (y3.toNat - 48)) * 10
                    + (y4.toNat - 48)
        if decide (1 ≤ mm) && decide (mm ≤ 12) && decide (1 ≤ yy) then some (yy, mm)
        else none
      else none
  | _ => none

/-- Zero-pad a natural to two digits, as `strftime("%m")`. -/
def pad2 (n : Nat) : String := if n < 10 then "0" ++ toString n else toString n

/-- `datetime.strftime(_, "%m/%Y")` on a `(year, month)` pair. -/
def strftime_mm_yyyy (d : Nat × Nat) : String := pad2 d.2 ++ "/" ++ toString d.1

/-- `datetime` strict order on `(year, month)` pairs (day fixed at 1). -/
def dateLT (a b : Nat × Nat) : Bool :=
  a.1 < b.1 || (a.1 == b.1 && a.2 < b.2)

/-- `a > b` on `(year, month)` pairs. -/
def dateGT (a b : Nat × Nat) : Bool := dateLT b a

/-- Python `min` over a list of dates (`none` on the empty list). -/
def listMin : List (Nat × Nat) → Option (Nat × Nat)
  | [] => none
  | d :: ds => some (ds.foldl (fun acc x => if dateLT x acc then x else acc) d)

/-- Python `max` over a list of dates (`none` on the empty list). -/
def listMax : List (Nat × Nat) → Option (Nat × Nat)
  | [] => none
  | d :: ds => some (ds.foldl (fun acc x => if dateGT x acc then x else acc) d)

/-- `MONTHS_EN` table from the source (dict insertion order; the duplicate
Python key `"may"` maps to the same value `"05"`). -/
def MONTHS_EN : List (String × String) :=
  [("january", "01"), ("february", "02"), ("march", "03"), ("april", "04"), ("may", "05"),
   ("june", "06"), ("july", "07"), ("august", "08"), ("september", "09"), ("october", "10"),
   ("november", "11"), ("december", "12"),
   ("jan", "01"), ("feb", "02"), ("mar", "03"), ("apr", "04"), ("jun", "06"),
   ("jul", "07"), ("aug", "08"), ("sep", "09"), ("oct", "10"), ("nov", "11"), ("dec", "12")]

/-- `MONTHS_PT` table from the source. -/
def MONTHS_PT : List (String × String) :=
  [("janeiro", "01"), ("fevereiro", "02"), ("março", "03"), ("marco", "03"), ("abril", "04"),
   ("maio", "05"), ("junho", "06"), ("julho", "07"), ("agosto", "08"), ("setembro", "09"),
   ("outubro", "10"), ("novembro", "11"), ("dezembro", "12"),
   ("jan", "01"), ("fev", "02"), ("mar", "03"), ("abr", "04"), ("mai", "05"), ("jun", "06"),
   ("jul", "07"), ("ago", "08"), ("set", "09"), ("out", "10"), ("nov", "11"), ("dez", "12")]

/-- First-match association lookup (Python dict `.get`). -/
def lookupStr : List (String × String) → String → Option String
  | [], _ => none
  | (a, b) :: rest, k => if k == a then some b else lookupStr rest k

/-- Characters of the regex class `[a-zçãéíôúàõ]`. -/
def isWordC (c : Char) : Bool :=
  ('a' ≤ c && c ≤ 'z') || c == 'ç' || c == 'ã' || c == 'é' || c == 'í' ||
  c == 'ô' || c == 'ú' || c == 'à' || c == 'õ'

/-- Model of `re.match(r"([a-zçãéíôúàõ]+)\s+(\d{4})", s)`: maximal-munch is
exact because the three character classes are pairwise disjoint, so no
backtracking alternative exists. Returns the captured (month-name, year). -/
def monthYearMatch (cs : List Char) : Option (String × String) :=
  let letters := cs.takeWhile isWordC
  if letters.isEmpty then none
  else
    let r1 := cs.drop letters.length
    let sp := r1.takeWhile isSpaceC
    if sp.isEmpty then none
    else
      let r2 := r1.drop sp.length
      let ds := r2.take 4
      if ds.length == 4 && ds.all Char.isDigit then some (String.mk letters, String.mk ds)
      else none

/-- Model of `re.match(r"(\d{4})", s)`: four digits at the start. -/
def yearMatch (cs : List Char) : Option String :=
  let ds := cs.take 4
  if ds.length == 4 && ds.all Char.isDigit then some (String.mk ds) else none

/-- `normalize_to_mm_yyyy` from the source (string input case). -/
def normalize_to_mm_yyyy (date_str report_lang : String) : String :=
  let s := pyLower (pyStrip date_str)
  if valid_mm_yyyy s then s
  else
    let fallbackYear :=
      match yearMatch s.toList with
      | some y => "01/" ++ y
      | none => date_str
    match monthYearMatch s.toList with
    | some (name, year) =>
        let month_num :=
          if pyUpper report_lang == "PT" then lookupStr MONTHS_PT name
          else lookupStr MONTHS_EN name
        (match month_num with
         | some mn => mn ++ "/" ++ year
         | none => fallbackYear)
    | none => fallbackYear

/-- `PRESENT_TERMS_EN` from the source. -/
def PRESENT_TERMS_EN : List String :=
  ["present", "current", "currently", "actual", "nowadays", "this moment", "today"]

/-- `PRESENT_TERMS_PT` from the source. -/
def PRESENT_TERMS_PT : List String :=
  ["presente", "atual", "atualmente", "no presente", "neste momento", "data atual",
   "presente momento", "agora"]

/-- `is_present_term` from the source (string input case). -/
def is_present_term (end_str report_lang : String) : Bool :=
  let term := pyLower (pyStrip end_str)
  let lst := if pyUpper report_lang == "PT" then PRESENT_TERMS_PT else PRESENT_TERMS_EN
  lst.any (fun t => term == t || strContains term t)

/-- One entry of `CANONICAL_LANGUAGE_LEVELS`. -/
structure CanonicalLevel where
  en : String
  pt : String
  pats : List String
deriving DecidableEq

/-- `CANONICAL_LANGUAGE_LEVELS` from the source, in declaration order. -/
def CANONICAL_LANGUAGE_LEVELS : List CanonicalLevel :=
  [⟨"Elementary", "Elementar",
    ["elementary", "elementar", "basic", "básico"]⟩,
   ⟨"Pre-operational", "Pre-operacional",
    ["pre-operational", "pre operacional", "preoperational", "pre-operacional",
     "básico com intermediário", "basic with intermediary"]⟩,
   ⟨"Operational", "Operacional",
    ["operational", "operacional", "intermediary", "intermediário", "intermediaria"]⟩,
   ⟨"Extended", "Intermediário",
    ["extended", "intermediário avançado", "intermediary advanced", "advanced intermediary",
     "intermediário com habilidade avançada", "intermediary with advanced skill",
     "extended knowledge"]⟩,
   ⟨"Expert", "Avançado / Fluente",
    ["expert", "advanced", "avançado", "fluente", "fluent", "native"]⟩]

/-- The target-language label of a level (`lvl[lang_key]`). -/
def levelLabel (isPT : Bool) (lvl : CanonicalLevel) : String :=
  if isPT then lvl.pt else lvl.en

/-- The level loop of `canonicalize_language_level`: per level, first the
exact lowered-label comparison, then the substring patterns; first hit
returns that level's target-language label. -/
def canonFind (r : String) (isPT : Bool) : List CanonicalLevel → String
  | [] => ""
  | lvl :: rest =>
      let lbl := levelLabel isPT lvl
      if r == pyLower lbl then lbl
      else if lvl.pats.any (fun p => strContains r p) then lbl
      else canonFind r isPT rest

/-- `canonicalize_language_level` from the source (string input case). -/
def canonicalize_language_level (raw_level report_lang : String) : String :=
  let r := pyLower (pyStrip raw_level)
  let isPT := pyUpper report_lang == "PT"
  canonFind r isPT CANONICAL_LANGUAGE_LEVELS

/-- Spec-side matching predicate for one level: the raw (stripped, lowered)
string either equals the level's target-language label case-insensitively or
contains one of the level's registered patterns. -/
def levelFires (r : String) (isPT : Bool) (lvl : CanonicalLevel) : Bool :=
  r == pyLower (levelLabel isPT lvl) || lvl.pats.any (fun p => strContains r p)

/-- Spec-side canonicalization policy as the claim states it: levels are
inspected in declaration order, the first level that fires (exact label
match first, else pattern containment) supplies the result; empty string
when no level fires. -/
def canon_policy (raw_level report_lang : String) : String :=
  let r := pyLower (pyStrip raw_level)
  let isPT := pyUpper report_lang == "PT"
  match CANONICAL_LANGUAGE_LEVELS.find? (levelFires r isPT) with
  | some lvl => levelLabel isPT lvl
  | none => ""

/-- The anomaly test on the (stripped) external translation result from
`translate_text`: empty result or one of the fixed refusal/clarification
markers. -/
def refusalResult (result : String) : Bool :=
  result == "" ||
  startsWithStr (pyLower result) "i'm sorry" ||
  startsWithStr (pyLower result) "sorry" ||
  startsWithStr (pyLower result) "as an" ||
  startsWithStr (pyLower result) "as a" ||
  strContains (pyLower result) "could stand for many things" ||
  strContains (pyLower result) "provide more context"

/-- `translate_text` from the source, with the external OpenAI call
abstracted as `external`: `.error ()` models any exception raised inside the
`try` block, `.ok content` models the returned message content. -/
def translate_text (external : Except Unit String) (text target_lang : String) : String :=
  if pyStrip text == "" then text
  else if !(pyUpper target_lang == "EN" || pyUpper target_lang == "PT") then text
  else
    match external with
    | .error _ => text
    | .ok content =>
        let result := pyStrip content
        if refusalResult result then text
        else if pyStrip result == pyStrip text then text
        else result

/-- `default_skip` from `translate_json_values`. -/
def DEFAULT_SKIP : List String :=
  ["language_level", "level_description", "report_lang", "report_date", "company_title",
   "cdd_name", "last_company", "cdd_email", "cdd_cel", "cdd_ddd", "cdd_ddi", "cdd_age",
   "cdd_state", "cdd_city", "cdd_company", "company_start_date", "company_end_date",
   "start_date", "end_date", "academic_conclusion", "academic_institution"]

/-- Set membership for the skip-key sets (Python `k in skip_keys`). -/
def memberStr (k : String) (l : List String) : Bool := l.any (fun x => x == k)

mutual
/-- `translate_json_values` from the source, with the per-leaf translation
`translate_text(_, target_lang)` abstracted as `tr`. A `none` skip set is
replaced by the default set; a caller-supplied set is unioned with the
default set (modelled by list append, which has the same membership). -/
def translate_json_values (tr : String → String) (data : Json)
    (skip : Option (List String)) : Json :=
  let sk := match skip with
    | none => DEFAULT_SKIP
    | some l => l ++ DEFAULT_SKIP
  match data with
  | .obj kvs => .obj (tjvFields tr sk kvs)
  | .arr l => .arr (tjvItems tr sk l)
  | .str s => .str (tr s)
  | other => other

/-- Dict case of `translate_json_values`: values under skipped keys are kept
verbatim, other values are translated recursively. -/
def tjvFields (tr : String → String) (sk : List String) :
    List (String × Json) → List (String × Json)
  | [] => []
  | (k, v) :: rest =>
      (k, if memberStr k sk then v else translate_json_values tr v (some sk)) ::
        tjvFields tr sk rest

/-- List case of `translate_json_values`. -/
def tjvItems (tr : String → String) (sk : List String) : List Json → List Json
  | [] => []
  | v :: rest => translate_json_values tr v (some sk) :: tjvItems tr sk rest
end

mutual
/-- `preserves_skipped keys d r`: `r` has the same tree shape as `d` except
that string leaves reached without passing through a key in `keys` may
differ; every value stored under a key in `keys` (at any depth) is kept
exactly equal, and non-string scalars are kept exactly equal. -/
def preserves_skipped (keys : List String) : Json → Json → Bool
  | .obj kvs, .obj kvs2 => presFields keys kvs kvs2
  | .arr l, .arr l2 => presItems keys l l2
  | .str _, .str _ => true
  | .null, .null => true
  | .bool b, .bool b2 => b == b2
  | .num n, .num n2 => n == n2
  | _, _ => false

/-- Field-wise form of `preserves_skipped`. -/
def presFields (keys : List String) : List (String × Json) → List (String × Json) → Bool
  | [], [] => true
  | (k, v) :: r, (k2, v2) :: r2 =>
      k == k2 && (if memberStr k keys then jsonBEq v v2 else preserves_skipped keys v v2) &&
        presFields keys r r2
  | _, _ => false

/-- Element-wise form of `preserves_skipped`. -/
def presItems (keys : List String) : List Json → List Json → Bool
  | [], [] => true
  | v :: r, v2 :: r2 => preserves_skipped keys v v2 && presItems keys r r2
  | _, _ => false
end

/-- Python `key in data` as used by `enforce_schema`: key membership for a
dict, element equality for a list, substring test for a string, and a
`TypeError` (modelled as `.error ()`) for the non-iterable values
`None`/`bool`/number. -/
def pyContains (data : Json) (key : String) : Except Unit Bool :=
  match data with
  | .obj kvs => .ok (kvs.any (fun p => p.1 == key))
  | .arr elems => .ok (elems.any (fun e => jsonBEq e (.str key)))
  | .str s => .ok (strContains s key)
  | _ => .error ()

/-- First-match dict lookup (CPython dicts have unique keys). -/
def lookupJ : List (String × Json) → String → Option Json
  | [], _ => none
  | (a, v) :: rest, k => if a == k then some v else lookupJ rest k

/-- Python `data[key]` with a string key as used by `enforce_schema`:
dict lookup, and a `TypeError` for every other value (string and list
indexing by a string key raises even when `key in data` held). -/
def pyIndex (data : Json) (key : String) : Except Unit Json :=
  match data with
  | .obj kvs =>
      match lookupJ kvs key with
      | some v => .ok v
      | none => .error ()
  | _ => .error ()

mutual
/-- `enforce_schema` from the source. `.error ()` models a raised Python
exception (`TypeError` from `in`/`[]` on incompatible values, `IndexError`
from `schema[0]` on an empty template list). -/
def enforce_schema (data schema : Json) : Except Unit Json :=
  match schema with
  | .obj kvs =>
      match enforceFields data kvs with
      | .error e => .error e
      | .ok pairs => .ok (.obj pairs)
  | .arr l =>
      match data with
      | .arr (d :: ds) =>
          match l with
          | [] => .error ()
          | t :: _ =>
              match enforceItems t (d :: ds) with
              | .error e => .error e
              | .ok vs => .ok (.arr vs)
      | _ => .ok (.arr l)
  | s =>
      match data with
      | .null => .ok s
      | d => .ok d
termination_by (sizeOf schema, 0)

/-- The dict loop of `enforce_schema`. -/
def enforceFields (data : Json) (kvs : List (String × Json)) :
    Except Unit (List (String × Json)) :=
  match kvs with
  | [] => .ok []
  | (key, dflt) :: rest =>
      match pyContains data key with
      | .error e => .error e
      | .ok true =>
          match pyIndex data key with
          | .error e => .error e
          | .ok dv =>
              match enforce_schema dv dflt with
              | .error e => .error e
              | .ok v =>
                  match enforceFields data rest with
                  | .error e => .error e
                  | .ok tail => .ok ((key, v) :: tail)
      | .ok false =>
          match enforce_schema dflt dflt with
          | .error e => .error e
          | .ok v =>
              match enforceFields data rest with
              | .error e => .error e
              | .ok tail => .ok ((key, v) :: tail)
termination_by (sizeOf kvs, 0)

/-- The list comprehension of `enforce_schema`. -/
def enforceItems (t : Json) (items : List Json) : Except Unit (List Json) :=
  match items with
  | [] => .ok []
  | d :: ds =>
      match enforce_schema d t with
      | .error e => .error e
      | .ok v =>
          match enforceItems t ds with
          | .error e => .error e
          | .ok vs => .ok (v :: vs)
termination_by (sizeOf t, 1 + items.length)
end

mutual
/-- Shape conformance of a value with a schema template: at a mapping
template the value is a mapping with exactly the template's keys (in order)
and recursively conforming values; at a non-empty sequence template the
value is a sequence of values conforming to the head template; a scalar
template puts no constraint. -/
def conforms (out schema : Json) : Bool :=
  match schema with
  | .obj kvs =>
      match out with
      | .obj os => conformsFields os kvs
      | _ => false
  | .arr l =>
      match l with
      | [] => jsonBEq out (.arr [])
      | t :: _ =>
          match out with
          | .arr os => conformsItems os t
          | _ => false
  | _ => true
termination_by (sizeOf schema, 0)

/-- Field-wise conformance with a mapping template. -/
def conformsFields (os kvs : List (String × Json)) : Bool :=
  match os, kvs with
  | [], [] => true
  | (k, v) :: os2, (k2, df) :: kvs2 => k == k2 && conforms v df && conformsFields os2 kvs2
  | _, _ => false
termination_by (sizeOf kvs, 0)

/-- Element-wise conformance with the head template of a sequence. -/
def conformsItems (os : List Json) (t : Json) : Bool :=
  match os with
  | [] => true
  | o :: os2 => conforms o t && conformsItems os2 t
termination_by (sizeOf t, 1 + os.length)
end

/-- The keys of a key-value list are pairwise distinct (CPython dicts). -/
def distinctKeys : List (String × Json) → Bool
  | [] => true
  | (k, _) :: rest => !(rest.any (fun p => p.1 == k)) && distinctKeys rest

mutual
/-- Valid schema template: mappings have distinct keys and valid defaults,
sequence templates are one-element placeholder lists with a valid element
template (as in `REQUIRED_SCHEMA`), scalars are valid. -/
def validSchema (schema : Json) : Bool :=
  match schema with
  | .obj kvs => distinctKeys kvs && validFields kvs
  | .arr l =>
      match l with
      | [t] => validSchema t
      | _ => false
  | _ => true
termination_by (sizeOf schema, 0)

/-- All defaults of a mapping template are valid templates. -/
def validFields (kvs : List (String × Json)) : Bool :=
  match kvs with
  | [] => true
  | (_, df) :: rest => validSchema df && validFields rest
termination_by (sizeOf kvs, 0)
end

mutual
/-- Sufficient compatibility of an input value with a schema template for
`enforce_schema` to return without raising: every value matched against a
mapping template is itself a mapping whose present keys carry compatible
values; sequence elements are compatible with the head template; scalar
templates accept anything. -/
def compatible (data schema : Json) : Bool :=
  match schema with
  | .obj kvs =>
      match data with
      | .obj dkvs => compatFields dkvs kvs
      | _ => false
  | .arr l =>
      match l with
      | [] =>
          match data with
          | .arr (_ :: _) => false
          | _ => true
      | t :: _ =>
          match data with
          | .arr ds => compatItems ds t
          | _ => true
  | _ => true
termination_by (sizeOf schema, 0)

/-- Field-wise compatibility with a mapping template. -/
def compatFields (dkvs : List (String × Json)) (kvs : List (String × Json)) : Bool :=
  match kvs with
  | [] => true
  | (k, df) :: rest =>
      (match lookupJ dkvs k with
       | some v => compatible v df
       | none => true) && compatFields dkvs rest
termination_by (sizeOf kvs, 0)

/-- Element-wise compatibility with the head template of a sequence. -/
def compatItems (ds : List Json) (t : Json) : Bool :=
  match ds with
  | [] => true
  | d :: rest => compatible d t && compatItems rest t
termination_by (sizeOf t, 1 + ds.length)
end

/-- One job post of a line item, restricted to its date fields (the facts
under verification only concern those). -/
structure JobIn where
  start_date : String
  end_date : String

/-- The per-company accumulator of the `build_context` job loop:
`start_dates`, `end_dates` and `any_present`. -/
structure AggState where
  start_dates : List (Nat × Nat)
  end_dates : List (Nat × Nat)
  any_present : Bool

/-- One iteration of the `for job in item.get("job_posts", [])` loop of
`build_context`, restricted to its effect on the date accumulator. A
successfully parsed end date is appended twice (once inside the
`elif valid_mm_yyyy(norm_end)` branch and once by the following
`elif end_val != "00/0000" and end_dt` check), exactly as in the source. -/
def process_job (lang : String) (st : AggState) (job : JobIn) : AggState :=
  let norm_start := normalize_to_mm_yyyy job.start_date lang
  let starts :=
    if valid_mm_yyyy norm_start then
      match parse_mm_yyyy norm_start with
      | some d => st.start_dates ++ [d]
      | none => st.start_dates
    else st.start_dates
  let norm_end := normalize_to_mm_yyyy job.end_date lang
  if is_present_term norm_end lang then
    { start_dates := starts, end_dates := st.end_dates, any_present := true }
  else if valid_mm_yyyy norm_end then
    match parse_mm_yyyy norm_end with
    | some d =>
        { start_dates := starts, end_dates := st.end_dates ++ [d] ++ [d],
          any_present := st.any_present }
    | none =>
        { start_dates := starts, end_dates := st.end_dates, any_present := st.any_present }
  else
    { start_dates := starts, end_dates := st.end_dates, any_present := st.any_present }

/-- The `(company_start_date, company_end_date)` pair computed by
`build_context` for one line item from its job posts. -/
def build_context_company_dates (lang : String) (jobs : List JobIn) : String × String :=
  let st := jobs.foldl (process_job lang) ⟨[], [], false⟩
  let csd :=
    match listMin st.start_dates with
    | some d => strftime_mm_yyyy d
    | none => "00/0000"
  let ced :=
    if st.any_present then "PRESENT"
    else
      match listMax st.end_dates with
      | some d => strftime_mm_yyyy d
      | none => "00/0000"
  (csd, ced)

/-- Spec-side view: the normalized start date of a job when it parses. -/
def job_start_parsed (lang : String) (j : JobIn) : Option (Nat × Nat) :=
  let n := normalize_to_mm_yyyy j.start_date lang
  if valid_mm_yyyy n then parse_mm_yyyy n else none

/-- Spec-side view: the job is ongoing (its normalized end date is a
present-term). -/
def job_ongoing (lang : String) (j : JobIn) : Bool :=
  is_present_term (normalize_to_mm_yyyy j.end_date lang) lang

/-- Spec-side view: the normalized end date of a non-ongoing job when it
parses. -/
def job_end_parsed (lang : String) (j : JobIn) : Option (Nat × Nat) :=
  let n := normalize_to_mm_yyyy j.end_date lang
  if job_ongoing lang j then none
  else if valid_mm_yyyy n then parse_mm_yyyy n else none

/-- Spec-side company start date: minimum of all successfully parsed start
dates, sentinel if none. -/
def spec_company_start (lang : String) (jobs : List JobIn) : String :=
  match listMin (jobs.filterMap (job_start_parsed lang)) with
  | some d => strftime_mm_yyyy d
  | none => "00/0000"

/-- Spec-side company end date: `PRESENT` if any job is ongoing, else the
maximum of all successfully parsed end dates, else the sentinel. -/
def spec_company_end (lang : String) (jobs : List JobIn) : String :=
  if jobs.any (job_ongoing lang) then "PRESENT"
  else
    match listMax (jobs.filterMap (job_end_parsed lang)) with
    | some d => strftime_mm_yyyy d
    | none => "00/0000"

/-- `end_cmp` from `build_context`: `PRESENT` to tier 2, valid `MM/YYYY`
strings to tier 1 with their parsed date, everything else to tier 0. -/
def end_cmp (end_str : String) : Nat × Option (Nat × Nat) :=
  if end_str == "PRESENT" then (2, none)
  else if valid_mm_yyyy end_str then (1, parse_mm_yyyy end_str)
  else (0, none)

/-- Python `>` on the pairs produced by `end_cmp`: first components decide
when they differ; equal first components fall to the second components,
where `None == None` makes the tuples equal (`False`). Comparing `None`
against a date raises in Python; that case is unreachable for the strings
`build_context` produces (see `end_shape_ok`) and is modelled as `false`. -/
def tuple_gt (x y : Nat × Option (Nat × Nat)) : Bool :=
  if x.1 ≠ y.1 then decide (x.1 > y.1)
  else
    match x.2, y.2 with
    | some a, some b => dateGT a b
    | _, _ => false

/-- The `last_company` selection loop of `build_context` over
`(cdd_company, company_end_date)` pairs: the running best is replaced only
on strict `>`, starting from `latest_date = None`. -/
def build_context_last_company (items : List (String × String)) : String :=
  (items.foldl
    (fun acc item =>
      match acc.1 with
      | none => (some item.2, item.1)
      | some ld => if tuple_gt (end_cmp item.2) (end_cmp ld) then (some item.2, item.1) else acc)
    ((none : Option String), "")).2

/-- A `company_end_date` string as `build_context` can produce one:
whenever it is a valid `MM/YYYY` string it also parses (year ≥ 1). -/
def end_shape_ok (s : String) : Bool :=
  !valid_mm_yyyy s || (parse_mm_yyyy s).isSome

/-- Spec-side tier of a `company_end_date` value: ongoing above any valid
parsed date, valid parsed dates above sentinel/unparseable. -/
def spec_tier (s : String) : Nat :=
  if s == "PRESENT" then 2
  else if valid_mm_yyyy s && (parse_mm_yyyy s).isSome then 1
  else 0

/-- Spec-side strict order on `company_end_date` values as the claim states
it: compare tiers first, and within the valid-date tier compare
chronologically. -/
def spec_end_gt (a b : String) : Bool :=
  if spec_tier a ≠ spec_tier b then decide (spec_tier a > spec_tier b)
  else if spec_tier a == 1 then
    dateGT ((parse_mm_yyyy a).getD (0, 0)) ((parse_mm_yyyy b).getD (0, 0))
  else false

/-- Spec-side selection: scan the items in encounter order and replace the
running most-recent employer only when strictly more recent under
`spec_end_gt` (the first item seen wins ties). -/
def spec_last_company (items : List (String × String)) : String :=
  (items.foldl
    (fun acc item =>
      match acc.1 with
      | none => (some item.2, item.1)
      | some ld => if spec_end_gt item.2 ld then (some item.2, item.1) else acc)
    ((none : Option String), "")).2

/-- `data.get("report_lang", "PT")` as used by `build_context` and
`parse_cv_to_json`: the default applies only when the key is absent. -/
def get_report_lang (stored : Option String) : String := stored.getD "PT"

/-- Each date of the list repeated twice, in order (the shape in which the
`build_context` job loop accumulates `end_dates`). -/
def dupList : List (Nat × Nat) → List (Nat × Nat)
  | [] => []
  | d :: rest => d :: d :: dupList rest

/-- The `end_dates` list accumulated by the job loop: every successfully
parsed non-ongoing end date appears twice. -/
def dblEnds (lang : String) : List JobIn → List (Nat × Nat)
  | [] => []
  | j :: rest =>
      (match job_end_parsed lang j with
       | some d => [d, d]
       | none => []) ++ dblEnds lang rest

/- ===================== Theorems ===================== -/

theorem dropWhile_head_false {α : Type} (p : α → Bool) (w : List α) (c : α) (t : List α)
    (h : w.dropWhile p = c :: t) : p c = false := by
  have hd := List.head?_dropWhile_not p w
  rw [h] at hd
  simpa using hd

theorem dropWhile_dropWhile {α : Type} (p : α → Bool) (w : List α) :
    (w.dropWhile p).dropWhile p = w.dropWhile p := by
  cases hv : w.dropWhile p with
  | nil => rfl
  | cons c t => exact List.dropWhile_cons_of_neg (by simp [dropWhile_head_false p w c t hv])

theorem stripL_idem (l : List Char) : stripL (stripL l) = stripL l := by
  unfold stripL
  cases hv : ((l.dropWhile isSpaceC).reverse.dropWhile isSpaceC) with
  | nil => simp
  | cons c0 t0 =>
      rw [← hv]
      have hA : ((l.dropWhile isSpaceC).reverse.dropWhile isSpaceC).reverse.dropWhile isSpaceC
          = ((l.dropWhile isSpaceC).reverse.dropWhile isSpaceC).reverse := by
        rw [hv]
        cases hr : (c0 :: t0).reverse with
        | nil => simp at hr
        | cons c t =>
            have hsplit : (l.dropWhile isSpaceC).reverse.takeWhile isSpaceC ++ (c0 :: t0)
                = (l.dropWhile isSpaceC).reverse := by
              rw [← hv]; exact List.takeWhile_append_dropWhile _ _
            have hu : l.dropWhile isSpaceC
                = (c0 :: t0).reverse ++ ((l.dropWhile isSpaceC).reverse.takeWhile isSpaceC).reverse := by
              have := congrArg List.reverse hsplit
              simpa [List.reverse_append] using this.symm
            rw [hr] at hu
            have hc : isSpaceC c = false := by
              apply dropWhile_head_false isSpaceC l c
                ((t ++ ((l.dropWhile isSpaceC).reverse.takeWhile isSpaceC).reverse))
              simpa using hu
            exact List.dropWhile_cons_of_neg (by simp [hc])
      rw [hA, List.reverse_reverse, dropWhile_dropWhile]

theorem pyStrip_idem (s : String) : pyStrip (pyStrip s) = pyStrip s := by
  unfold pyStrip
  exact congrArg String.mk (stripL_idem s.toList)

/-- C4 counterexample: the date normalizer does not zero-pad a single-digit
numeric month; `normalize_to_mm_yyyy "6/2024" "EN"` is not `"06/2024"`
(no branch of the function matches `"6/2024"`, so it is returned
unchanged). -/
theorem claim4_counterexample : normalize_to_mm_yyyy "6/2024" "EN" ≠ "06/2024" := by decide

/-- C4 (amended): a single-digit numeric month is passed through unchanged —
`normalize_to_mm_yyyy "6/2024" "EN" = "6/2024"` — and the result is not a
valid `MM/YYYY` string, so downstream aggregation treats it as the sentinel
`00/0000`. -/
theorem claim4_no_zero_pad :
    normalize_to_mm_yyyy "6/2024" "EN" = "6/2024" ∧
    valid_mm_yyyy (normalize_to_mm_yyyy "6/2024" "EN") = false := by
  constructor <;> decide

/-- C5: month-name-plus-year expressions map through the per-language month
tables with zero-padded month, and a bare four-digit year maps to month 01:
`normalize("April 2024","EN") = "04/2024"`, `normalize("abril 2024","PT") =
"04/2024"`, `normalize("2021","EN") = "01/2021"`. -/
theorem claim5_month_names :
    normalize_to_mm_yyyy "April 2024" "EN" = "04/2024" ∧
    normalize_to_mm_yyyy "abril 2024" "PT" = "04/2024" ∧
    normalize_to_mm_yyyy "2021" "EN" = "01/2021" := by
  refine ⟨?_, ?_, ?_⟩ <;> decide

theorem canonFind_eq_find (r : String) (isPT : Bool) (levels : List CanonicalLevel) :
    canonFind r isPT levels =
      (match levels.find? (levelFires r isPT) with
       | some lvl => levelLabel isPT lvl
       | none => "") := by
  induction levels with
  | nil => rfl
  | cons lvl rest ih =>
      by_cases h1 : (r == pyLower (levelLabel isPT lvl)) = true
      · simp [canonFind, List.find?, levelFires, h1]
      · rw [Bool.not_eq_true] at h1
        by_cases h2 : (lvl.pats.any (fun p => strContains r p)) = true
        · simp [canonFind, List.find?, levelFires, h1, h2]
        · rw [Bool.not_eq_true] at h2
          simp [canonFind, List.find?, levelFires, h1, h2, ih]

/-- C6: `canonicalize_language_level` implements exactly the declared
matching policy — the five levels are inspected in declaration order
(earlier-declared levels checked first), and for each level the exact
case-insensitive match against the target-language label is applied before
the substring-containment patterns; the first level that matches supplies
its localized label. In particular `"básico"`/PT and `"basic"`/EN resolve
to the Elementary tier's labels, and a string matching both the Elementary
and the Operational tier resolves to the earlier-declared Elementary. -/
theorem claim6_canonicalize_policy :
    (∀ raw_level report_lang, canonicalize_language_level raw_level report_lang =
      canon_policy raw_level report_lang) ∧
    canonicalize_language_level "básico" "PT" = "Elementar" ∧
    canonicalize_language_level "basic" "EN" = "Elementary" ∧
    canonicalize_language_level "basic intermediary" "EN" = "Elementary" := by
  refine ⟨fun raw_level report_lang => ?_, by decide, by decide, by decide⟩
  unfold canonicalize_language_level canon_policy
  exact canonFind_eq_find _ _ _

/-- C9 (amended): a report-language value whose upper-casing is not `"PT"`
(e.g. `"FR"`, or the empty string) makes every language-dispatched
operation behave as for `"EN"`, not `"PT"`; only an absent `report_lang`
key defaults to `"PT"` via `data.get("report_lang", "PT")`. -/
theorem claim9_lang_dispatch (lang : String) (h : pyUpper lang ≠ "PT") (s t : String) :
    is_present_term s lang = is_present_term s "EN" ∧
    normalize_to_mm_yyyy s lang = normalize_to_mm_yyyy s "EN" ∧
    canonicalize_language_level t lang = canonicalize_language_level t "EN" ∧
    get_report_lang none = "PT" := by
  have hb : (pyUpper lang == "PT") = false := by
    simpa using h
  have hen : (pyUpper "EN" == "PT") = false := by decide
  refine ⟨?_, ?_, ?_, rfl⟩
  · simp [is_present_term, hb, hen]
  · simp [normalize_to_mm_yyyy, hb, hen]
  · simp [canonicalize_language_level, hb, hen]

/-- C9 witness at `lang = "FR"`. -/
theorem claim9_witness :
    is_present_term "atualmente" "FR" = is_present_term "atualmente" "EN" ∧
    normalize_to_mm_yyyy "maio 2020" "FR" = normalize_to_mm_yyyy "maio 2020" "EN" ∧
    canonicalize_language_level "básico" "FR" = canonicalize_language_level "básico" "EN" ∧
    get_report_lang none = "PT" :=
  claim9_lang_dispatch "FR" (by decide) "atualmente" "básico" |>.imp id
    (fun hrest => ⟨(claim9_lang_dispatch "FR" (by decide) "maio 2020" "básico").2.1,
      hrest.2.1, hrest.2.2⟩)

/-- C9 counterexample: for the unknown language code `"FR"` the pipeline
does not behave as for `"PT"` — `"atualmente"` is a Portuguese present-term
but is not recognized under `"FR"` (which dispatches to the English term
list). -/
theorem claim9_counterexample :
    is_present_term "atualmente" "FR" = false ∧ is_present_term "atualmente" "PT" = true := by
  constructor <;> decide

/-- C7 counterexample: the code performs no third-language check on the
external result — a Spanish result (`"hola amigo"`, which contains Spanish
lexical markers and is neither empty, a refusal phrase, nor the input) is
returned as the translation instead of keeping the original `"hello"`. -/
theorem claim7_counterexample :
    translate_text (.ok "hola amigo") "hello" "EN" = "hola amigo" ∧
    ("hola amigo" : String) ≠ "hello" := by
  constructor <;> decide

/-- C7 (amended): the translation step never raises — an exception inside
the call (modelled by `.error ()`) and an external result that is empty, a
refusal/clarification phrase, or identical to the input all make
`translate_text` return the original string unchanged. (No check for
lexical markers of a third language is performed.) -/
theorem claim7_translate_fail_safe (text target_lang r : String)
    (h : refusalResult (pyStrip r) = true ∨ pyStrip r = pyStrip text) :
    translate_text (.error ()) text target_lang = text ∧
    translate_text (.ok r) text target_lang = text := by
  unfold translate_text
  by_cases h1 : (pyStrip text == "") = true
  · simp [h1]
  · rw [Bool.not_eq_true] at h1
    by_cases h2 : (!(pyUpper target_lang == "EN" || pyUpper target_lang == "PT")) = true
    · simp [h1, h2]
    · rw [Bool.not_eq_true] at h2
      refine ⟨by simp [h1, h2], ?_⟩
      rcases h with h3 | h3
      · simp [h1, h2, h3]
      · by_cases h4 : refusalResult (pyStrip r) = true
        · simp [h1, h2, h4]
        · rw [Bool.not_eq_true] at h4
          have h5 : (pyStrip (pyStrip r) == pyStrip text) = true := by
            rw [pyStrip_idem, h3]
            exact beq_self_eq_true _
          simp [h1, h2, h4, h5]

/-- C7 witness: an identical-to-input external result keeps the original. -/
theorem claim7_witness :
    translate_text (.error ()) "hello" "EN" = "hello" ∧
    translate_text (.ok "hello") "hello" "EN" = "hello" :=
  claim7_translate_fail_safe "hello" "EN" "hello" (Or.inr rfl)

mutual
theorem jsonBEq_refl (v : Json) : jsonBEq v v = true := by
  match v with
  | .null => rfl
  | .bool b => simp [jsonBEq]
  | .num n => simp [jsonBEq]
  | .str s => simp [jsonBEq]
  | .arr l => simpa [jsonBEq] using jsonListBEq_refl l
  | .obj kvs => simpa [jsonBEq] using jsonFieldsBEq_refl kvs

theorem jsonListBEq_refl (l : List Json) : jsonListBEq l l = true := by
  match l with
  | [] => rfl
  | a :: as => simp [jsonListBEq, jsonBEq_refl a, jsonListBEq_refl as]

theorem jsonFieldsBEq_refl (kvs : List (String × Json)) : jsonFieldsBEq kvs kvs = true := by
  match kvs with
  | [] => rfl
  | (k, v) :: rest => simp [jsonFieldsBEq, jsonBEq_refl v, jsonFieldsBEq_refl rest]
end

mutual
theorem preserves_refl (keys : List String) (v : Json) : preserves_skipped keys v v = true := by
  match v with
  | .null => rfl
  | .bool b => simp [preserves_skipped]
  | .num n => simp [preserves_skipped]
  | .str s => simp [preserves_skipped]
  | .arr l => simpa [preserves_skipped] using presItems_refl keys l
  | .obj kvs => simpa [preserves_skipped] using presFields_refl keys kvs

theorem presFields_refl (keys : List String) (kvs : List (String × Json)) :
    presFields keys kvs kvs = true := by
  match kvs with
  | [] => rfl
  | (k, v) :: rest =>
      cases hm : memberStr k keys <;>
        simp [presFields, hm, jsonBEq_refl v, preserves_refl keys v, presFields_refl keys rest]

theorem presItems_refl (keys : List String) (l : List Json) : presItems keys l l = true := by
  match l with
  | [] => rfl
  | v :: rest => simp [presItems, preserves_refl keys v, presItems_refl keys rest]
end

theorem memberStr_append (k : String) (a b : List String) :
    memberStr k (a ++ b) = (memberStr k a || memberStr k b) := by
  simp [memberStr, List.any_append]

mutual
theorem tjv_preserves (tr : String → String) (data : Json) (skip : Option (List String)) :
    preserves_skipped DEFAULT_SKIP data (translate_json_values tr data skip) = true := by
  have hsk : ∀ k, memberStr k DEFAULT_SKIP = true →
      memberStr k (match skip with
        | none => DEFAULT_SKIP
        | some l => l ++ DEFAULT_SKIP) = true := by
    intro k hk
    match skip with
    | none => exact hk
    | some l => rw [memberStr_append, hk]; simp
  match data with
  | .null => simp [translate_json_values, preserves_skipped]
  | .bool b => simp [translate_json_values, preserves_skipped]
  | .num n => simp [translate_json_values, preserves_skipped]
  | .str s => simp [translate_json_values, preserves_skipped]
  | .arr l =>
      simpa [translate_json_values, preserves_skipped] using
        tjvItems_preserves tr _ (by exact hsk) l
  | .obj kvs =>
      simpa [translate_json_values, preserves_skipped] using
        tjvFields_preserves tr _ (by exact hsk) kvs

theorem tjvFields_preserves (tr : String → String) (sk : List String)
    (hsk : ∀ k, memberStr k DEFAULT_SKIP = true → memberStr k sk = true)
    (kvs : List (String × Json)) :
    presFields DEFAULT_SKIP kvs (tjvFields tr sk kvs) = true := by
  match kvs with
  | [] => simp [tjvFields, presFields]
  | (k, v) :: rest =>
      by_cases hd : memberStr k DEFAULT_SKIP = true
      · have hs := hsk k hd
        simp [tjvFields, presFields, hd, hs, jsonBEq_refl v,
          tjvFields_preserves tr sk hsk rest]
      · rw [Bool.not_eq_true] at hd
        by_cases hs : memberStr k sk = true
        · simp [tjvFields, presFields, hd, hs, preserves_refl DEFAULT_SKIP v,
            tjvFields_preserves tr sk hsk rest]
        · rw [Bool.not_eq_true] at hs
          simp [tjvFields, presFields, hd, hs, tjv_preserves tr v (some sk),
            tjvFields_preserves tr sk hsk rest]

theorem tjvItems_preserves (tr : String → String) (sk : List String)
    (hsk : ∀ k, memberStr k DEFAULT_SKIP = true → memberStr k sk = true)
    (l : List Json) :
    presItems DEFAULT_SKIP l (tjvItems tr sk l) = true := by
  match l with
  | [] => simp [tjvItems, presItems]
  | v :: rest =>
      simp [tjvItems, presItems, tjv_preserves tr v (some sk),
        tjvItems_preserves tr sk hsk rest]
end

/-- C10: for every input tree and every caller-supplied skip-key set
(including none), `translate_json_values` keeps every value stored under a
built-in default exempt key exactly unchanged at every nesting depth, and
keeps non-string scalars unchanged: the caller's set is unioned with the
default set, never replaces it. -/
theorem claim10_skip_keys (tr : String → String) (skip : Option (List String)) (data : Json) :
    preserves_skipped DEFAULT_SKIP data (translate_json_values tr data skip) = true :=
  tjv_preserves tr data skip

theorem dateGT_irrefl (d : Nat × Nat) : dateGT d d = false := by
  simp [dateGT, dateLT]

theorem process_job_eq (lang : String) (st : AggState) (j : JobIn) :
    process_job lang st j =
      ⟨st.start_dates ++ (job_start_parsed lang j).toList,
       st.end_dates ++ (match job_end_parsed lang j with | some d => [d, d] | none => []),
       st.any_present || job_ongoing lang j⟩ := by
  unfold process_job job_start_parsed job_ongoing job_end_parsed
  by_cases hp : is_present_term (normalize_to_mm_yyyy j.end_date lang) lang = true
  · by_cases hv : valid_mm_yyyy (normalize_to_mm_yyyy j.start_date lang) = true
    · cases hps : parse_mm_yyyy (normalize_to_mm_yyyy j.start_date lang) <;>
        simp [job_ongoing, hp, hv, hps]
    · rw [Bool.not_eq_true] at hv
      simp [job_ongoing, hp, hv]
  · rw [Bool.not_eq_true] at hp
    by_cases hve : valid_mm_yyyy (normalize_to_mm_yyyy j.end_date lang) = true
    · by_cases hv : valid_mm_yyyy (normalize_to_mm_yyyy j.start_date lang) = true
      · cases hps : parse_mm_yyyy (normalize_to_mm_yyyy j.start_date lang) <;>
          cases hpe : parse_mm_yyyy (normalize_to_mm_yyyy j.end_date lang) <;>
          simp [job_ongoing, hp, hv, hve, hps, hpe]
      · rw [Bool.not_eq_true] at hv
        cases hpe : parse_mm_yyyy (normalize_to_mm_yyyy j.end_date lang) <;>
          simp [job_ongoing, hp, hv, hve, hpe]
    · rw [Bool.not_eq_true] at hve
      by_cases hv : valid_mm_yyyy (normalize_to_mm_yyyy j.start_date lang) = true
      · cases hps : parse_mm_yyyy (normalize_to_mm_yyyy j.start_date lang) <;>
          simp [job_ongoing, hp, hv, hve, hps]
      · rw [Bool.not_eq_true] at hv
        simp [job_ongoing, hp, hv, hve]

theorem foldl_process_job (lang : String) (jobs : List JobIn) (s0 e0 : List (Nat × Nat))
    (p0 : Bool) :
    jobs.foldl (process_job lang) ⟨s0, e0, p0⟩ =
      ⟨s0 ++ jobs.filterMap (job_start_parsed lang), e0 ++ dblEnds lang jobs,
       p0 || jobs.any (job_ongoing lang)⟩ := by
  induction jobs generalizing s0 e0 p0 with
  | nil => simp [dblEnds]
  | cons j rest ih =>
      rw [List.foldl_cons, process_job_eq, ih]
      cases hs : job_start_parsed lang j <;> cases he : job_end_parsed lang j <;>
        simp [dblEnds, hs, he, List.filterMap_cons, Bool.or_assoc, List.append_assoc]

theorem foldl_max_dup (l : List (Nat × Nat)) (acc : Nat × Nat) :
    (dupList l).foldl (fun acc x => if dateGT x acc then x else acc) acc =
      l.foldl (fun acc x => if dateGT x acc then x else acc) acc := by
  induction l generalizing acc with
  | nil => rfl
  | cons d rest ih =>
      have hstep : (if dateGT d (if dateGT d acc then d else acc) then d
          else (if dateGT d acc then d else acc)) = if dateGT d acc then d else acc := by
        by_cases h : dateGT d acc = true
        · simp [h, dateGT_irrefl]
        · rw [Bool.not_eq_true] at h
          simp [h]
      simp only [dupList, List.foldl_cons]
      rw [hstep]
      exact ih _

theorem dblEnds_eq_dup (lang : String) (jobs : List JobIn) :
    dblEnds lang jobs = dupList (jobs.filterMap (job_end_parsed lang)) := by
  induction jobs with
  | nil => rfl
  | cons j rest ih =>
      cases he : job_end_parsed lang j <;>
        simp [dblEnds, dupList, he, List.filterMap_cons, ih]

theorem listMax_dup (l : List (Nat × Nat)) : listMax (dupList l) = listMax l := by
  cases l with
  | nil => rfl
  | cons d rest =>
      simp only [dupList, listMax, List.foldl_cons, dateGT_irrefl, if_neg Bool.false_ne_true]
      rw [foldl_max_dup]

/-- C2: for every employer's job-post list (after per-job normalization),
`company_start_date` is the minimum of all successfully parsed start dates
(sentinel `00/0000` if none), and `company_end_date` is `PRESENT` when any
job is ongoing, else the maximum of all successfully parsed end dates, else
the sentinel. In particular an employer with one ongoing and one closed job
gets `company_end_date = "PRESENT"` regardless of the closed job's dates. -/
theorem claim2_company_dates :
    (∀ lang jobs, build_context_company_dates lang jobs =
      (spec_company_start lang jobs, spec_company_end lang jobs)) ∧
    build_context_company_dates "EN" [⟨"01/2020", "present"⟩, ⟨"03/2010", "05/2015"⟩] =
      ("03/2010", "PRESENT") := by
  constructor
  · intro lang jobs
    unfold build_context_company_dates spec_company_start spec_company_end
    rw [foldl_process_job lang jobs [] [] false]
    simp only [List.nil_append, Bool.false_or]
    rw [dblEnds_eq_dup, listMax_dup]
  · decide

theorem end_cmp_gt_eq_spec (a b : String) (ha : end_shape_ok a = true)
    (hb : end_shape_ok b = true) :
    tuple_gt (end_cmp a) (end_cmp b) = spec_end_gt a b := by
  unfold end_shape_ok at ha hb
  by_cases h1 : (a == "PRESENT") = true
  · by_cases h2 : (b == "PRESENT") = true
    · simp [end_cmp, tuple_gt, spec_end_gt, spec_tier, h1, h2]
    · rw [Bool.not_eq_true] at h2
      by_cases h3 : valid_mm_yyyy b = true
      · have hsb : (parse_mm_yyyy b).isSome = true := by
          rw [h3] at hb; simpa using hb
        obtain ⟨db, hdb⟩ := Option.isSome_iff_exists.mp hsb
        simp [end_cmp, tuple_gt, spec_end_gt, spec_tier, h1, h2, h3, hdb]
      · rw [Bool.not_eq_true] at h3
        simp [end_cmp, tuple_gt, spec_end_gt, spec_tier, h1, h2, h3]
  · rw [Bool.not_eq_true] at h1
    by_cases h3 : valid_mm_yyyy a = true
    · have hsa : (parse_mm_yyyy a).isSome = true := by
        rw [h3] at ha; simpa using ha
      obtain ⟨da, hda⟩ := Option.isSome_iff_exists.mp hsa
      by_cases h2 : (b == "PRESENT") = true
      · simp [end_cmp, tuple_gt, spec_end_gt, spec_tier, h1, h2, h3, hda]
      · rw [Bool.not_eq_true] at h2
        by_cases h4 : valid_mm_yyyy b = true
        · have hsb : (parse_mm_yyyy b).isSome = true := by
            rw [h4] at hb; simpa using hb
          obtain ⟨db, hdb⟩ := Option.isSome_iff_exists.mp hsb
          simp [end_cmp, tuple_gt, spec_end_gt, spec_tier, h1, h2, h3, h4, hda, hdb]
        · rw [Bool.not_eq_true] at h4
          simp [end_cmp, tuple_gt, spec_end_gt, spec_tier, h1, h2, h3, h4, hda]
    · rw [Bool.not_eq_true] at h3
      by_cases h2 : (b == "PRESENT") = true
      · simp [end_cmp, tuple_gt, spec_end_gt, spec_tier, h1, h2, h3]
      · rw [Bool.not_eq_true] at h2
        by_cases h4 : valid_mm_yyyy b = true
        · have hsb : (parse_mm_yyyy b).isSome = true := by
            rw [h4] at hb; simpa using hb
          obtain ⟨db, hdb⟩ := Option.isSome_iff_exists.mp hsb
          simp [end_cmp, tuple_gt, spec_end_gt, spec_tier, h1, h2, h3, h4, hdb]
        · rw [Bool.not_eq_true] at h4
          simp [end_cmp, tuple_gt, spec_end_gt, spec_tier, h1, h2, h3, h4]

theorem sel_fold_eq (items : List (String × String))
    (h : ∀ p ∈ items, end_shape_ok p.2 = true) (acc : Option String × String)
    (hacc : acc.1 = none ∨ ∃ ld, acc.1 = some ld ∧ end_shape_ok ld = true) :
    items.foldl
      (fun acc item =>
        match acc.1 with
        | none => (some item.2, item.1)
        | some ld =>
            if tuple_gt (end_cmp item.2) (end_cmp ld) then (some item.2, item.1) else acc)
      acc =
    items.foldl
      (fun acc item =>
        match acc.1 with
        | none => (some item.2, item.1)
        | some ld => if spec_end_gt item.2 ld then (some item.2, item.1) else acc)
      acc := by
  induction items generalizing acc with
  | nil => rfl
  | cons it rest ih =>
      have hit : end_shape_ok it.2 = true := h it (List.mem_cons_self _ _)
      have hrest : ∀ p ∈ rest, end_shape_ok p.2 = true :=
        fun p hp => h p (List.mem_cons_of_mem _ hp)
      obtain ⟨a1, a2⟩ := acc
      rcases hacc with hnone | ⟨ld, hld, hsld⟩
      · simp only at hnone
        subst hnone
        simp only [List.foldl_cons]
        exact ih hrest (some it.2, it.1) (Or.inr ⟨it.2, rfl, hit⟩)
      · simp only at hld
        subst hld
        simp only [List.foldl_cons]
        rw [show (tuple_gt (end_cmp it.2) (end_cmp ld)) = spec_end_gt it.2 ld from
          end_cmp_gt_eq_spec it.2 ld hit hsld]
        by_cases hgt : spec_end_gt it.2 ld = true
        · rw [if_pos hgt]
          exact ih hrest (some it.2, it.1) (Or.inr ⟨it.2, rfl, hit⟩)
        · rw [Bool.not_eq_true] at hgt
          rw [if_neg (by simp [hgt])]
          exact ih hrest (some ld, a2) (Or.inr ⟨ld, rfl, hsld⟩)

/-- C3: on `(cdd_company, company_end_date)` pairs as `build_context`
produces them (every valid `MM/YYYY` end string parses, `end_shape_ok`),
the `last_company` selection loop computes exactly the claim's policy:
scan in encounter order and keep the first item seen, replacing it only
when an item is strictly greater under the total order
ongoing (`PRESENT`) > chronologically-compared valid dates >
sentinel/unparseable (`spec_end_gt`) — strict greater-than, never
greater-or-equal. -/
theorem claim3_last_company (items : List (String × String))
    (h : ∀ p ∈ items, end_shape_ok p.2 = true) :
    build_context_last_company items = spec_last_company items := by
  unfold build_context_last_company spec_last_company
  rw [sel_fold_eq items h (none, "") (Or.inl rfl)]

/-- C3 witness: a `PRESENT` employer beats a dated one. -/
theorem claim3_witness :
    build_context_last_company [("A", "03/2022"), ("B", "PRESENT")] =
      spec_last_company [("A", "03/2022"), ("B", "PRESENT")] ∧
    spec_last_company [("A", "03/2022"), ("B", "PRESENT")] = "B" :=
  ⟨claim3_last_company _ (by decide), by decide⟩

mutual
theorem conforms_self (s : Json) (hv : validSchema s = true) : conforms s s = true := by
  match s with
  | .null => simp [conforms]
  | .bool b => simp [conforms]
  | .num n => simp [conforms]
  | .str t => simp [conforms]
  | .obj kvs =>
      have hvf : validFields kvs = true := by
        simp [validSchema, Bool.and_eq_true] at hv
        exact hv.2
      simpa [conforms] using conformsFields_self kvs hvf
  | .arr l =>
      cases l with
      | nil => simp [validSchema] at hv
      | cons t rest =>
          cases rest with
          | nil =>
              have hvt : validSchema t = true := by simpa [validSchema] using hv
              simp [conforms, conformsItems, conforms_self t hvt]
          | cons t2 rest2 => simp [validSchema] at hv
termination_by (sizeOf s, 0)

theorem conformsFields_self (kvs : List (String × Json)) (hv : validFields kvs = true) :
    conformsFields kvs kvs = true := by
  match kvs with
  | [] => simp [conformsFields]
  | (k, df) :: rest =>
      have h1 : validSchema df = true := by
        simp [validFields, Bool.and_eq_true] at hv
        exact hv.1
      have h2 : validFields rest = true := by
        simp [validFields, Bool.and_eq_true] at hv
        exact hv.2
      simp [conformsFields, conforms_self df h1, conformsFields_self rest h2]
termination_by (sizeOf kvs, 0)
end

mutual
theorem enforce_conforms (data schema out : Json) (hv : validSchema schema = true)
    (h : enforce_schema data schema = .ok out) : conforms out schema = true := by
  match schema with
  | .obj kvs =>
      have hvf : validFields kvs = true := by
        simp [validSchema, Bool.and_eq_true] at hv
        exact hv.2
      simp only [enforce_schema] at h
      split at h
      · simp at h
      · rename_i pairs hf
        simp only [Except.ok.injEq] at h
        subst h
        simpa [conforms] using enforceFields_conform data kvs pairs hvf hf
  | .arr l =>
      cases l with
      | nil => simp [validSchema] at hv
      | cons t rest =>
          cases rest with
          | cons t2 rest2 => simp [validSchema] at hv
          | nil =>
              have hvt : validSchema t = true := by simpa [validSchema] using hv
              have hself : conforms (Json.arr [t]) (Json.arr [t]) = true := by
                simp [conforms, conformsItems, conforms_self t hvt]
              match data with
              | .arr (d :: ds) =>
                  simp only [enforce_schema] at h
                  split at h
                  · simp at h
                  · rename_i vs hi
                    simp only [Except.ok.injEq] at h
                    subst h
                    simpa [conforms] using enforceItems_conform t (d :: ds) vs hvt hi
              | .arr [] =>
                  simp only [enforce_schema, Except.ok.injEq] at h
                  subst h
                  exact hself
              | .null =>
                  simp only [enforce_schema, Except.ok.injEq] at h
                  subst h
                  exact hself
              | .bool b =>
                  simp only [enforce_schema, Except.ok.injEq] at h
                  subst h
                  exact hself
              | .num n =>
                  simp only [enforce_schema, Except.ok.injEq] at h
                  subst h
                  exact hself
              | .str s2 =>
                  simp only [enforce_schema, Except.ok.injEq] at h
                  subst h
                  exact hself
              | .obj dkvs =>
                  simp only [enforce_schema, Except.ok.injEq] at h
                  subst h
                  exact hself
  | .null => simp [conforms]
  | .bool b => simp [conforms]
  | .num n => simp [conforms]
  | .str s2 => simp [conforms]
termination_by (sizeOf schema, 0)

theorem enforceFields_conform (data : Json) (kvs pairs : List (String × Json))
    (hv : validFields kvs = true) (h : enforceFields data kvs = .ok pairs) :
    conformsFields pairs kvs = true := by
  match kvs with
  | [] =>
      simp only [enforceFields, Except.ok.injEq] at h
      subst h
      simp [conformsFields]
  | (key, dflt) :: rest =>
      have hv1 : validSchema dflt = true := by
        simp [validFields, Bool.and_eq_true] at hv
        exact hv.1
      have hv2 : validFields rest = true := by
        simp [validFields, Bool.and_eq_true] at hv
        exact hv.2
      simp only [enforceFields] at h
      split at h
      · simp at h
      · -- key present in data
        split at h
        · simp at h
        · rename_i dv hi
          split at h
          · simp at h
          · rename_i v he
            split at h
            · simp at h
            · rename_i tail ht
              simp only [Except.ok.injEq] at h
              subst h
              simp [conformsFields, enforce_conforms dv dflt v hv1 he,
                enforceFields_conform data rest tail hv2 ht]
      · -- key absent: default enforced against itself
        split at h
        · simp at h
        · rename_i v he
          split at h
          · simp at h
          · rename_i tail ht
            simp only [Except.ok.injEq] at h
            subst h
            simp [conformsFields, enforce_conforms dflt dflt v hv1 he,
              enforceFields_conform data rest tail hv2 ht]
termination_by (sizeOf kvs, 0)

theorem enforceItems_conform (t : Json) (items vs : List Json)
    (hv : validSchema t = true) (h : enforceItems t items = .ok vs) :
    conformsItems vs t = true := by
  match items with
  | [] =>
      simp only [enforceItems, Except.ok.injEq] at h
      subst h
      simp [conformsItems]
  | d :: ds =>
      simp only [enforceItems] at h
      split at h
      · simp at h
      · rename_i v he
        split at h
        · simp at h
        · rename_i ws ht
          simp only [Except.ok.injEq] at h
          subst h
          simp [conformsItems, enforce_conforms d t v hv he,
            enforceItems_conform t ds ws hv ht]
termination_by (sizeOf t, 1 + items.length)
end

/-- C1 counterexample: `enforce_schema` does not return a conforming value
for every input — for the JSON value `null` against a mapping template it
raises a `TypeError` (Python `"k" in None`), returning nothing at all; and
at a scalar template position the input value is passed through with its
own shape, which need not equal the template's shape. -/
theorem claim1_counterexample :
    enforce_schema .null (.obj [("k", .str "")]) = .error () ∧
    enforce_schema (.obj [("a", .obj [("x", .num 1)])]) (.obj [("a", .str "")]) =
      .ok (.obj [("a", .obj [("x", .num 1)])]) := by
  constructor
  · simp [enforce_schema, enforceFields, pyContains]
  · simp [enforce_schema, enforceFields, pyContains, pyIndex, lookupJ]

/-- C1 (amended): whenever `enforce_schema(value, template)` returns
without raising, the returned value conforms to the template recursively:
at every mapping-template position the output is a mapping with exactly the
template's keys, at every sequence-template position a sequence of
conforming elements, while scalar template positions pass the input value
through unchanged whatever its shape. (For some inputs the function raises
`TypeError` instead of returning — see the counterexample.) -/
theorem claim1_enforce_conforms (data schema out : Json) (hv : validSchema schema = true)
    (h : enforce_schema data schema = .ok out) : conforms out schema = true :=
  enforce_conforms data schema out hv h

/-- C1 witness at a concrete input and template. -/
theorem claim1_witness :
    validSchema (Json.obj [("a", Json.str "")]) = true ∧
    enforce_schema (Json.obj [("a", Json.num 2)]) (Json.obj [("a", Json.str "")]) =
      .ok (Json.obj [("a", Json.num 2)]) ∧
    conforms (Json.obj [("a", Json.num 2)]) (Json.obj [("a", Json.str "")]) = true :=
  ⟨by simp [validSchema, validFields, distinctKeys],
   by simp [enforce_schema, enforceFields, pyContains, pyIndex, lookupJ],
   claim1_enforce_conforms (Json.obj [("a", Json.num 2)]) (Json.obj [("a", Json.str "")])
     (Json.obj [("a", Json.num 2)])
     (by simp [validSchema, validFields, distinctKeys])
     (by simp [enforce_schema, enforceFields, pyContains, pyIndex, lookupJ])⟩

theorem sizeOf_mem_fields_list {k : String} {df : Json} :
    ∀ (kvs : List (String × Json)), (k, df) ∈ kvs → sizeOf df < sizeOf kvs := by
  intro kvs
  induction kvs with
  | nil => intro hm; cases hm
  | cons p rest ih =>
      intro hm
      rcases List.mem_cons.mp hm with he | ht
      · subst he
        simp
        omega
      · have h2 := ih ht
        simp
        omega

theorem sizeOf_mem_obj {k : String} {df : Json} {kvs : List (String × Json)}
    (hm : (k, df) ∈ kvs) : sizeOf df < sizeOf (Json.obj kvs) := by
  have h2 := sizeOf_mem_fields_list kvs hm
  simp
  omega

theorem validFields_mem : ∀ (kvs : List (String × Json)), validFields kvs = true →
    ∀ k df, (k, df) ∈ kvs → validSchema df = true := by
  intro kvs
  induction kvs with
  | nil => intro _ k df hm; cases hm
  | cons p rest ih =>
      intro hv k df hm
      obtain ⟨k0, v0⟩ := p
      have h1 : validSchema v0 = true ∧ validFields rest = true := by
        simpa [validFields, Bool.and_eq_true] using hv
      rcases List.mem_cons.mp hm with he | ht
      · cases he
        exact h1.1
      · exact ih h1.2 k df ht

theorem distinct_lookup : ∀ (kvs : List (String × Json)), distinctKeys kvs = true →
    ∀ k df, (k, df) ∈ kvs → lookupJ kvs k = some df := by
  intro kvs
  induction kvs with
  | nil => intro _ k df hm; cases hm
  | cons p rest ih =>
      intro hd k df hm
      obtain ⟨k0, v0⟩ := p
      have hd1 : (rest.any (fun q => q.1 == k0)) = false ∧ distinctKeys rest = true := by
        simpa [distinctKeys, Bool.and_eq_true] using hd
      rcases List.mem_cons.mp hm with he | ht
      · cases he
        simp [lookupJ]
      · have hne : (k0 == k) = false := by
          rcases hk : (k0 == k) with _ | _
          · rfl
          · exfalso
            have hkk : k0 = k := by simpa using hk
            subst hkk
            have hany : rest.any (fun q => q.1 == k0) = true :=
              List.any_eq_true.mpr ⟨(k0, df), ht, by simp⟩
            rw [hany] at hd1
            exact Bool.noConfusion hd1.1
        rw [show lookupJ ((k0, v0) :: rest) k = lookupJ rest k by simp [lookupJ, hne]]
        exact ih hd1.2 k df ht

theorem lookup_of_any : ∀ (dkvs : List (String × Json)) (k : String),
    dkvs.any (fun p => p.1 == k) = true → ∃ v, lookupJ dkvs k = some v := by
  intro dkvs k
  induction dkvs with
  | nil => intro h; simp at h
  | cons p rest ih =>
      intro h
      obtain ⟨a, w⟩ := p
      by_cases ha : (a == k) = true
      · exact ⟨w, by simp [lookupJ, ha]⟩
      · rw [Bool.not_eq_true] at ha
        have h2 : rest.any (fun q => q.1 == k) = true := by
          simpa [List.any_cons, ha] using h
        obtain ⟨v, hv⟩ := ih h2
        exact ⟨v, by simp [lookupJ, ha, hv]⟩

theorem compatFields_self : ∀ (kvs0 kvs : List (String × Json)),
    (∀ k df, (k, df) ∈ kvs → lookupJ kvs0 k = some df) →
    (∀ k df, (k, df) ∈ kvs → compatible df df = true) →
    compatFields kvs0 kvs = true := by
  intro kvs0 kvs
  induction kvs with
  | nil => intro _ _; simp [compatFields]
  | cons p rest ih =>
      intro hsub hIH
      obtain ⟨k, df⟩ := p
      have hlk := hsub k df (List.mem_cons_self _ _)
      have hcd := hIH k df (List.mem_cons_self _ _)
      have hrest := ih (fun k2 df2 hm => hsub k2 df2 (List.mem_cons_of_mem _ hm))
        (fun k2 df2 hm => hIH k2 df2 (List.mem_cons_of_mem _ hm))
      simp [compatFields, hlk, hcd, hrest]

theorem compat_self (s : Json) (hv : validSchema s = true) : compatible s s = true := by
  match s with
  | .null => simp [compatible]
  | .bool b => simp [compatible]
  | .num n => simp [compatible]
  | .str t => simp [compatible]
  | .obj kvs =>
      have hd : distinctKeys kvs = true := by
        simp [validSchema, Bool.and_eq_true] at hv
        exact hv.1
      have hf : validFields kvs = true := by
        simp [validSchema, Bool.and_eq_true] at hv
        exact hv.2
      have hcf : compatFields kvs kvs = true :=
        compatFields_self kvs kvs (fun k df hm => distinct_lookup kvs hd k df hm)
          (fun k df hm => compat_self df (validFields_mem kvs hf k df hm))
      simpa [compatible] using hcf
  | .arr [] => simp [validSchema] at hv
  | .arr (t :: t2 :: r2) => simp [validSchema] at hv
  | .arr [t] =>
      have hvt : validSchema t = true := by simpa [validSchema] using hv
      simp [compatible, compatItems, compat_self t hvt]
termination_by sizeOf s
decreasing_by
  all_goals simp_wf
  · have := sizeOf_mem_fields_list kvs hm
    omega
  · omega

theorem enforceItems_ok : ∀ (t : Json) (ds : List Json),
    (∀ d, compatible d t = true → ∃ out, enforce_schema d t = .ok out) →
    compatItems ds t = true → ∃ vs, enforceItems t ds = .ok vs := by
  intro t ds hIH
  induction ds with
  | nil => intro _; exact ⟨[], by simp [enforceItems]⟩
  | cons d rest ih =>
      intro hc
      have hc1 : compatible d t = true ∧ compatItems rest t = true := by
        simpa [compatItems, Bool.and_eq_true] using hc
      obtain ⟨v, hv⟩ := hIH d hc1.1
      obtain ⟨ws, hw⟩ := ih hc1.2
      exact ⟨v :: ws, by simp [enforceItems, hv, hw]⟩

theorem enforceFields_ok : ∀ (dkvs kvs : List (String × Json)),
    compatFields dkvs kvs = true →
    (∀ k df, (k, df) ∈ kvs →
      (∀ v, compatible v df = true → ∃ out, enforce_schema v df = .ok out) ∧
      (∃ out, enforce_schema df df = .ok out)) →
    ∃ pairs, enforceFields (.obj dkvs) kvs = .ok pairs := by
  intro dkvs kvs
  induction kvs with
  | nil => intro _ _; exact ⟨[], by simp [enforceFields]⟩
  | cons p rest ih =>
      intro hc hIH
      obtain ⟨key, dflt⟩ := p
      have hc2 := hc
      simp only [compatFields, Bool.and_eq_true] at hc2
      obtain ⟨hcm, hcr⟩ := hc2
      obtain ⟨tail, htail⟩ := ih hcr (fun k df hm => hIH k df (List.mem_cons_of_mem _ hm))
      by_cases hany : (dkvs.any (fun q => q.1 == key)) = true
      · obtain ⟨v, hlk⟩ := lookup_of_any dkvs key hany
        have hcv : compatible v dflt = true := by
          rw [hlk] at hcm
          simpa using hcm
        obtain ⟨w, hw⟩ := (hIH key dflt (List.mem_cons_self _ _)).1 v hcv
        exact ⟨(key, w) :: tail,
          by simp [enforceFields, pyContains, hany, pyIndex, hlk, hw, htail]⟩
      · rw [Bool.not_eq_true] at hany
        obtain ⟨w, hw⟩ := (hIH key dflt (List.mem_cons_self _ _)).2
        exact ⟨(key, w) :: tail, by simp [enforceFields, pyContains, hany, hw, htail]⟩

theorem compat_ok (data schema : Json) (hv : validSchema schema = true)
    (hc : compatible data schema = true) : ∃ out, enforce_schema data schema = .ok out := by
  match schema with
  | .null => cases data <;> simp [enforce_schema]
  | .bool b => cases data <;> simp [enforce_schema]
  | .num n => cases data <;> simp [enforce_schema]
  | .str t => cases data <;> simp [enforce_schema]
  | .obj kvs =>
      match data with
      | .obj dkvs =>
          have hf : validFields kvs = true := by
            simp [validSchema, Bool.and_eq_true] at hv
            exact hv.2
          have hcf : compatFields dkvs kvs = true := by simpa [compatible] using hc
          obtain ⟨pairs, hp⟩ := enforceFields_ok dkvs kvs hcf
            (fun k df hm =>
              ⟨fun v hcv => compat_ok v df (validFields_mem kvs hf k df hm) hcv,
               compat_ok df df (validFields_mem kvs hf k df hm)
                 (compat_self df (validFields_mem kvs hf k df hm))⟩)
          exact ⟨.obj pairs, by simp [enforce_schema, hp]⟩
      | .null => simp [compatible] at hc
      | .bool b => simp [compatible] at hc
      | .num n => simp [compatible] at hc
      | .str t => simp [compatible] at hc
      | .arr l => simp [compatible] at hc
  | .arr [] => simp [validSchema] at hv
  | .arr (t :: t2 :: r2) => simp [validSchema] at hv
  | .arr [t] =>
      have hvt : validSchema t = true := by simpa [validSchema] using hv
      match data with
      | .arr [] => exact ⟨.arr [t], by simp [enforce_schema]⟩
      | .arr (d :: ds2) =>
          have hci : compatItems (d :: ds2) t = true := by simpa [compatible] using hc
          obtain ⟨vs, hvs⟩ := enforceItems_ok t (d :: ds2)
            (fun d2 hcd => compat_ok d2 t hvt hcd) hci
          exact ⟨.arr vs, by simp [enforce_schema, hvs]⟩
      | .null => exact ⟨.arr [t], by simp [enforce_schema]⟩
      | .bool b => exact ⟨.arr [t], by simp [enforce_schema]⟩
      | .num n => exact ⟨.arr [t], by simp [enforce_schema]⟩
      | .str s2 => exact ⟨.arr [t], by simp [enforce_schema]⟩
      | .obj dkvs => exact ⟨.arr [t], by simp [enforce_schema]⟩
termination_by sizeOf schema
decreasing_by
  all_goals simp_wf
  · have := sizeOf_mem_fields_list kvs hm
    omega
  · have := sizeOf_mem_fields_list kvs hm
    omega
  · omega

/-- C8 counterexample: `enforce_schema` does raise for some malformed
inputs — for the number `0` against a mapping template, Python evaluates
`key in 0` and raises `TypeError` (modelled `.error ()`). -/
theorem claim8_counterexample :
    enforce_schema (.num 0) (.obj [("a", .str "")]) = .error () := by
  simp [enforce_schema, enforceFields, pyContains]

/-- C8 (amended): `enforce_schema` always terminates (it is modelled by a
total function, the recursion being bounded by the fixed, finite schema
depth), and it returns without raising whenever every input value matched
against a mapping template is itself a mapping (`compatible`); it is not
exception-free for arbitrary values — a non-iterable value meeting a
mapping template raises `TypeError` (see the counterexample). -/
theorem claim8_enforce_total (data schema : Json) (hv : validSchema schema = true)
    (hc : compatible data schema = true) :
    ∃ out, enforce_schema data schema = .ok out :=
  compat_ok data schema hv hc

/-- C8 witness: a mapping input with a missing key enforces cleanly. -/
theorem claim8_witness :
    validSchema (Json.obj [("a", Json.str ""), ("b", Json.str "x")]) = true ∧
    compatible (Json.obj [("b", Json.str "y")])
      (Json.obj [("a", Json.str ""), ("b", Json.str "x")]) = true ∧
    ∃ out, enforce_schema (Json.obj [("b", Json.str "y")])
      (Json.obj [("a", Json.str ""), ("b", Json.str "x")]) = .ok out :=
  ⟨by simp [validSchema, validFields, distinctKeys],
   by simp [compatible, compatFields, lookupJ],
   claim8_enforce_total (Json.obj [("b", Json.str "y")])
     (Json.obj [("a", Json.str ""), ("b", Json.str "x")])
     (by simp [validSchema, validFields, distinctKeys])
     (by simp [compatible, compatFields, lookupJ])⟩
